import Mathlib

/-! Overview.

Shallow embedding of the doe-chatbot ingestion pipeline and chat frontend,
with theorems settling the specification claims about it.

Sources embedded here:
- `lib/infra/ingestion/pipeline.ts` (the `IngestionPipeline` construct: cache
  table and its global secondary index, step-function definition, distributed
  map, ECS container environment);
- `lib/infra/stacks/francis-stack.ts` (`FrancisChatbotStack` corpus-type
  branching);
- the ECS embeddings migration README (result file format and locations);
- `frontend/src/components/chat/Message.tsx` (`parseMessageContent`).

Behaviour of collaborators whose code is not in the repository (the Step
Functions distributed-map scheduler, DynamoDB query semantics, and the
ingestion lambda bodies) is modelled from the specification; every such
definition carries a doc comment starting `Modelled from the spec:`.
-/

namespace DoeChatbot

/-! Section: FrancisChatbotStack corpus-type branching (francis-stack.ts lines 93–137) -/

/-- The constructs the stack can provision, at the granularity the claims
need.  The ingestion pipeline itself provisions the ingestion state machine,
the change-cache table and the ECS embeddings cluster. -/
inductive StackConstruct where
  | bedrockExecutionRole
  | openSearchVectorStore
  | knowledgeBase
  | pgVectorStore
  | ingestionStateMachine
  | cacheTable
  | embeddingsCluster
  deriving DecidableEq, Repr

/-- The resources created inside the `IngestionPipeline` construct
(pipeline.ts: `IngestionStateMachine`, `CacheTable`, `EmbeddingsCluster`). -/
def ingestionPipelineConstructs : List StackConstruct :=
  [.ingestionStateMachine, .cacheTable, .embeddingsCluster]

/-- `FrancisChatbotStack` branching on
`baseInfra.systemConfig.ragConfig.corpusConfig?.corpusType == 'knowledgebase'`:
the knowledge-base branch provisions a Bedrock execution role, an OpenSearch
vector store and a Bedrock knowledge base; the default branch provisions a
pgvector store and the `IngestionPipeline` construct.  `corpusType = none`
models an absent `corpusConfig` (the optional chain yields `undefined`). -/
def provisionedConstructs (corpusType : Option String) : List StackConstruct :=
  if corpusType = some "knowledgebase" then
    [.bedrockExecutionRole, .openSearchVectorStore, .knowledgeBase]
  else
    .pgVectorStore :: ingestionPipelineConstructs

/-! Section: Distributed-map concurrency (pipeline.ts lines 438–454) -/

/-- `maxConcurrency` of the `DistributedMap` in pipeline.ts line 439. -/
def maxConcurrency : Nat := 1

/-- State of the fan-out worker pool: counts of manifest items not yet
dispatched, currently in flight, and completed. -/
structure PoolState where
  pending : Nat
  inFlight : Nat
  done : Nat
  deriving DecidableEq, Repr

/-- Modelled from the spec: the Step Functions distributed-map scheduler
(its implementation is not part of this repository) dispatches a pending
item only while the number of in-flight worker tasks is strictly below the
configured ceiling, and otherwise only retires finished tasks. -/
inductive PoolStep (ceiling : Nat) : PoolState → PoolState → Prop where
  | dispatch (p f d : Nat) (h : f < ceiling) :
      PoolStep ceiling ⟨p + 1, f, d⟩ ⟨p, f + 1, d⟩
  | finish (p f d : Nat) :
      PoolStep ceiling ⟨p, f + 1, d⟩ ⟨p, f, d + 1⟩

/-- Reachability in the worker pool: reflexive-transitive closure of steps. -/
def PoolReaches (ceiling : Nat) : PoolState → PoolState → Prop :=
  Relation.ReflTransGen (PoolStep ceiling)

/-- The initial pool state of a batch with `n` manifest items. -/
def initialPool (n : Nat) : PoolState := ⟨n, 0, 0⟩

/-! Section: Change-cache table and its secondary index (pipeline.ts lines 52–77) -/

/-- A change-cache item as seen by the global secondary index `GSI1`
(pipeline.ts lines 67–77): partition key attribute `UpdatedStatus`, sort key
attribute `FileURI`. -/
structure CacheEntry where
  fileURI : String
  updatedStatus : String
  deriving DecidableEq, Repr

/-- The `GSI1` key of an entry: partition key `UpdatedStatus` first, sort key
`FileURI` second. -/
def gsi1Key (e : CacheEntry) : String × String := (e.updatedStatus, e.fileURI)

/-- Key order of the index: entries are ordered by partition key
`UpdatedStatus`, and within one partition by sort key `FileURI`. -/
def gsi1KeyRel (a b : CacheEntry) : Prop :=
  a.updatedStatus < b.updatedStatus ∨
    (a.updatedStatus = b.updatedStatus ∧ a.fileURI ≤ b.fileURI)

instance : DecidableRel gsi1KeyRel := fun a b =>
  inferInstanceAs (Decidable (a.updatedStatus < b.updatedStatus ∨
    (a.updatedStatus = b.updatedStatus ∧ a.fileURI ≤ b.fileURI)))

instance : IsTrans CacheEntry gsi1KeyRel where
  trans a b c hab hbc := by
    simp only [gsi1KeyRel] at hab hbc ⊢
    rcases hab with h1 | ⟨e1, l1⟩ <;> rcases hbc with h2 | ⟨e2, l2⟩
    · exact Or.inl (lt_trans h1 h2)
    · exact Or.inl (e2 ▸ h1)
    · exact Or.inl (e1 ▸ h2)
    · exact Or.inr ⟨e1.trans e2, le_trans l1 l2⟩

instance : IsTotal CacheEntry gsi1KeyRel where
  total a b := by
    simp only [gsi1KeyRel]
    rcases lt_trichotomy a.updatedStatus b.updatedStatus with h | h | h
    · exact Or.inl (Or.inl h)
    · rcases le_total a.fileURI b.fileURI with hf | hf
      · exact Or.inl (Or.inr ⟨h, hf⟩)
      · exact Or.inr (Or.inr ⟨h.symm, hf⟩)
    · exact Or.inr (Or.inl h)

/-- Modelled from the spec: the view a DynamoDB global secondary index keeps
of the table — the same items, ordered by `(partition key, sort key)`,
i.e. by `(UpdatedStatus, FileURI)` for `GSI1`. -/
def gsi1Index (table : List CacheEntry) : List CacheEntry :=
  List.insertionSort gsi1KeyRel table

/-- Modelled from the spec: a DynamoDB `Query` on `GSI1` with a partition key
value returns exactly the index items in that partition, in index (sort key)
order. -/
def gsi1QueryByStatus (table : List CacheEntry) (status : String) : List CacheEntry :=
  (gsi1Index table).filter (fun e => e.updatedStatus = status)

/-! Section: ECS container environment (pipeline.ts lines 159–161, 310–338, 394–414) -/

/-- The chunking configuration of a corpus config, `chunkingConfiguration` in
`corpusConfig.corpusProperties` (types imported by pipeline.ts). -/
structure ChunkingConfiguration where
  chunkSize : Option Nat
  chunkOverlap : Option Nat
  deriving DecidableEq, Repr

/-- `corpusProperties` of a `DefaultCorpusConfig`. -/
structure CorpusProperties where
  chunkingConfiguration : Option ChunkingConfiguration
  deriving DecidableEq, Repr

/-- `DefaultCorpusConfig` as read in pipeline.ts line 159:
`props.baseInfra.systemConfig.ragConfig.corpusConfig`. -/
structure DefaultCorpusConfig where
  corpusProperties : Option CorpusProperties
  deriving DecidableEq, Repr

/-- JavaScript `a || b` on a possibly-absent number: `undefined` and the
falsy number `0` both fall through to the default. -/
def jsOrDefault (v : Option Nat) (dflt : Nat) : Nat :=
  match v with
  | none => dflt
  | some n => if n = 0 then dflt else n

/-- The optional chain
`corpusConfig?.corpusProperties?.chunkingConfiguration?.chunkSize`. -/
def configuredChunkSize (corpusConfig : Option DefaultCorpusConfig) : Option Nat :=
  ((corpusConfig.bind (·.corpusProperties)).bind (·.chunkingConfiguration)).bind (·.chunkSize)

/-- The optional chain
`corpusConfig?.corpusProperties?.chunkingConfiguration?.chunkOverlap`. -/
def configuredChunkOverlap (corpusConfig : Option DefaultCorpusConfig) : Option Nat :=
  ((corpusConfig.bind (·.corpusProperties)).bind (·.chunkingConfiguration)).bind (·.chunkOverlap)

/-- Deployment-dependent string values interpolated into the container
environment; their contents are irrelevant to the claims. -/
structure DeploymentValues where
  metricsNamespace : String
  cacheTableName : String
  embeddingsModels : String
  processedBucketName : String
  linksTableName : String
  mediaBucketName : String
  region : String
  rdsSecretArn : String
  rdsEndpoint : String

/-- The environment of the `embeddings` container in the ECS task definition
(pipeline.ts lines 320–338): the common ingestion variables plus the
chunking variables computed with JavaScript `||` from the corpus config and
the constants' defaults. -/
def containerEnvironment (dep : DeploymentValues)
    (corpusConfig : Option DefaultCorpusConfig)
    (defaultChunkSize defaultChunkOverlap : Nat) : List (String × String) :=
  [("METRICS_NAMESPACE", dep.metricsNamespace),
   ("CACHE_TABLE_NAME", dep.cacheTableName),
   ("EMBEDDINGS_SAGEMAKER_MODELS", dep.embeddingsModels),
   ("PROCESSED_BUCKET_NAME", dep.processedBucketName),
   ("POWERTOOLS_SERVICE_NAME", "ingestion-embeddings"),
   ("LINKS_TABLE_NAME", dep.linksTableName),
   ("MEDIA_BUCKET_NAME", dep.mediaBucketName),
   ("AWS_REGION", dep.region),
   ("REGION_NAME", dep.region),
   ("RDS_SECRET_ARN", dep.rdsSecretArn),
   ("RDS_ENDPOINT", dep.rdsEndpoint),
   ("CHUNK_SIZE_DOC_SPLIT",
     toString (jsOrDefault (configuredChunkSize corpusConfig) defaultChunkSize)),
   ("OVERLAP_FOR_DOC_SPLIT",
     toString (jsOrDefault (configuredChunkOverlap corpusConfig) defaultChunkOverlap))]

/-- The per-run container overrides of the `EcsRunTask` (pipeline.ts lines
394–414): only the step-function payload and execution identity are
overridden per batch. -/
def runTaskOverrides (inputJson executionName stateMachineName : String) :
    List (String × String) :=
  [("INPUT_JSON", inputJson),
   ("EXECUTION_NAME", executionName),
   ("STATE_MACHINE_NAME", stateMachineName)]

/-- The environment an embedding worker task actually sees: run-task
overrides take precedence over the container definition's environment. -/
def effectiveTaskEnvironment (dep : DeploymentValues)
    (corpusConfig : Option DefaultCorpusConfig)
    (defaultChunkSize defaultChunkOverlap : Nat)
    (inputJson executionName stateMachineName : String) : List (String × String) :=
  runTaskOverrides inputJson executionName stateMachineName ++
    containerEnvironment dep corpusConfig defaultChunkSize defaultChunkOverlap

/-- Environment lookup: first binding of the key wins. -/
def lookupEnv (env : List (String × String)) (key : String) : Option String :=
  (env.find? (fun kv => kv.1 = key)).map (·.2)

/-! Section: Result manifest (pipeline.ts lines 438–454; ECS migration README) -/

/-- A manifest item: a document selected for action in one batch. -/
structure ManifestItem where
  uri : String
  isDelete : Bool
  fingerprintAtSelection : String
  deriving DecidableEq, Repr

/-- The distributed map's item-reader key
(`ingestion_input/{}/config.json` formatted with `$$.Execution.Name`,
pipeline.ts lines 440–446). -/
def itemReaderKey (executionName : String) : String :=
  "ingestion_input/" ++ executionName ++ "/config.json"

/-- The result-writer location
(`ingestion_output/{}/sf-results` formatted with `$$.Execution.Name`,
pipeline.ts lines 447–453). -/
def resultWriterLocation (executionName : String) : String :=
  "ingestion_output/" ++ executionName ++ "/sf-results"

/-- One per-document result record in the format the repository documents
(README, Output Compatibility):
`{"FileURI": "s3://...", "EmbeddingsGenerated": 123}`. -/
structure ResultRecord where
  fileURI : String
  embeddingsGenerated : Nat
  deriving DecidableEq, Repr

/-- The field names of a documented result record. -/
def resultRecordFields : List String := ["FileURI", "EmbeddingsGenerated"]

/-- Modelled from the spec: the distributed map's result writer (its
implementation is not part of this repository) writes, under the
result-writer location, one result record per manifest item processed, the
record carrying the item's document URI and the units the worker produced
for it. -/
def fanOutResultRecords (manifest : List ManifestItem)
    (unitsProduced : String → Nat) : List ResultRecord :=
  manifest.map (fun item => ⟨item.uri, unitsProduced item.uri⟩)

/-! Section: The ingestion state machine (pipeline.ts lines 371–467) -/

/-- The states of the ingestion step function, in the order they are chained
in `definition` (pipeline.ts lines 458–467).  `inputValidation` is the
"Detect and identify documents for ingestion" lambda task,
`vectorStoreManagement` the bookkeeping lambda task, `ingestionChoice` the
"Are there any documents that need to be ingested?" choice,
`distributedMap` the fan-out over the manifest, `succeeded` the `Succeed`
terminal, and `failed` the implicit failure terminal of an uncaught task
error. -/
inductive SfnState where
  | inputValidation
  | vectorStoreManagement
  | ingestionChoice
  | distributedMap
  | succeeded
  | failed
  deriving DecidableEq, Repr

/-- One execution's environment: whether the two lambda tasks fail, and the
`isValid` flag of the validation payload that the choice state reads. -/
structure ExecEnv where
  validationFails : Bool
  bookkeepFails : Bool
  isValid : Bool
  deriving DecidableEq, Repr

/-- The successor of each state under `definition` (pipeline.ts lines
458–467): `inputValidationTask.next(vectorStoreManagementTask.next(choice))`,
where the choice goes to `Succeed` when `$.Payload.isValid` equals `false`
and otherwise to `runFilesInParallel.next(succeedTask)`.  A lambda task
failure (no catch is configured) ends the execution in the failure
terminal. -/
def nextState (env : ExecEnv) : SfnState → Option SfnState
  | .inputValidation =>
      some (if env.validationFails then .failed else .vectorStoreManagement)
  | .vectorStoreManagement =>
      some (if env.bookkeepFails then .failed else .ingestionChoice)
  | .ingestionChoice =>
      some (if env.isValid = false then .succeeded else .distributedMap)
  | .distributedMap => some .succeeded
  | .succeeded => none
  | .failed => none

/-- The states an execution visits, in order, starting from the initial
state; `fuel` bounds the unfolding (the chain has no cycles, so any fuel at
least `5` is exact). -/
def runStates (env : ExecEnv) : Nat → SfnState → List SfnState
  | 0, s => [s]
  | fuel + 1, s =>
      s :: (match nextState env s with
            | none => []
            | some t => runStates env fuel t)

/-- The full trace of one execution, from `inputValidation`. -/
def execTrace (env : ExecEnv) : List SfnState :=
  runStates env 5 .inputValidation

/-- The number of embedding worker tasks an execution dispatches: one per
manifest item iterated by the distributed map, and none when the map state
is never entered. -/
def dispatchedWorkerTasks (env : ExecEnv) (manifest : List ManifestItem) : Nat :=
  if SfnState.distributedMap ∈ execTrace env then manifest.length else 0

/-- The successor of the choice state as the specification words it:
fan out only if `isValid` is true AND the manifest is non-empty, otherwise
go directly to the success terminal.  (Stated from the spec, for comparison
with `nextState`, which is stated from the code.) -/
def specChoiceSuccessor (isValid : Bool) (manifest : List ManifestItem) : SfnState :=
  if isValid = true ∧ manifest ≠ [] then .distributedMap else .succeeded

/-! Section: Input-bucket notifications (pipeline.ts lines 108–117) -/

/-- The S3 event types wired to notifications on the input assets bucket. -/
inductive S3EventType where
  | objectCreated
  | objectRemoved
  deriving DecidableEq, Repr

/-- The event notifications registered on `inputAssetsBucket`: both object
creation and object removal invoke the `cacheUpdateFunction` lambda
(pipeline.ts lines 109–116). -/
def inputBucketNotifications : List (S3EventType × String) :=
  [(.objectCreated, "cacheUpdateFunction"),
   (.objectRemoved, "cacheUpdateFunction")]

/-! Section: Change detection, validation and fan-out effects

The bodies of the `cache_update` / `input_validation` lambdas and of the
embedding worker are not part of the repository (only their infrastructure
declarations are), so their behaviour is modelled from the specification
(§4.1, §4.2, §4.5). -/

/-- Processing status of a cache record (spec §3). -/
inductive CacheStatus where
  | pending
  | processing
  | complete
  | failed
  | deleted
  deriving DecidableEq, Repr

/-- A change-cache record: document identity, content fingerprint,
processing status (spec §3). -/
structure CacheRecord where
  id : String
  fingerprint : String
  status : CacheStatus
  deriving DecidableEq, Repr

/-- Modelled from the spec: `Upsert(id, fingerprint)` of the Change Cache
(§4.1) — sets status `Pending` and the new fingerprint if the fingerprint
differs from the stored one, creates a new `Pending` entry if none exists,
and is a no-op when the fingerprint matches. -/
def upsertRecord (cache : List CacheRecord) (id fp : String) : List CacheRecord :=
  if cache.any (fun r => r.id = id) then
    cache.map (fun r =>
      if r.id = id then
        if r.fingerprint = fp then r
        else { r with fingerprint := fp, status := .pending }
      else r)
  else
    cache ++ [⟨id, fp, .pending⟩]

/-- Modelled from the spec: the deletion half of the Validation Stage
algorithm (§4.2) — for each cache entry with no corresponding listed
object, call `MarkDeleted`. -/
def markDeletedUnlisted (cache : List CacheRecord) (listedIds : List String) :
    List CacheRecord :=
  cache.map (fun r =>
    if r.id ∈ listedIds then r else { r with status := .deleted })

/-- Modelled from the spec: the cache state after a Validation Stage run over
a corpus listing of `(id, fingerprint)` pairs (§4.2) — upsert every listed
object, then mark every unlisted entry deleted. -/
def validationCacheUpdate (cache : List CacheRecord)
    (listing : List (String × String)) : List CacheRecord :=
  markDeletedUnlisted
    (listing.foldl (fun c pair => upsertRecord c pair.1 pair.2) cache)
    (listing.map (·.1))

/-- Modelled from the spec: the Manifest built from the updated cache
(§4.2) — one `Upsert` item per `Pending` entry and one `Delete` item per
`Deleted` entry. -/
def buildManifest (cache : List CacheRecord) : List ManifestItem :=
  cache.filterMap (fun r =>
    match r.status with
    | .pending => some ⟨r.id, false, r.fingerprint⟩
    | .deleted => some ⟨r.id, true, r.fingerprint⟩
    | _ => none)

/-- The shared state the fan-out mutates: the change cache and the vector
store, the latter as `(document uri, chunk payload)` rows. -/
structure WorldState where
  cache : List CacheRecord
  vectors : List (String × String)
  deriving DecidableEq, Repr

/-- Modelled from the spec: the effect of processing one manifest item
(§4.5) — on `Delete`, remove the document's vectors from the store and then
its Change Cache entry; on `Upsert`, run the embedding worker (which upserts
one row per produced chunk, tagged with the source uri) and set the cache
status to `Complete`. -/
def applyItem (chunksOf : String → List String) (w : WorldState)
    (item : ManifestItem) : WorldState :=
  if item.isDelete then
    { cache := w.cache.filter (fun r => ¬r.id = item.uri),
      vectors := w.vectors.filter (fun v => ¬v.1 = item.uri) }
  else
    { cache := w.cache.map (fun r =>
        if r.id = item.uri then { r with status := .complete } else r),
      vectors := w.vectors ++ (chunksOf item.uri).map (fun c => (item.uri, c)) }

/-- Modelled from the spec: a complete fan-out pass over the manifest. -/
def applyFanOut (chunksOf : String → List String) (w : WorldState)
    (manifest : List ManifestItem) : WorldState :=
  manifest.foldl (applyItem chunksOf) w

/-! Section: parseMessageContent (frontend Message.tsx lines 88–159)

The parser is embedded over `List Char`.  The three `/g` regular
expressions are embedded as deterministic matchers at a position plus a
left-to-right non-overlapping scan, which is exactly the behaviour of the
`while ((m = re.exec(text)) !== null)` loops.  A timestamp's value is kept
as the captured numeral (the code applies `parseFloat` to it; all video
renderings receive the `parseFloat` of the same captured numeral). -/

/-- Strip an expected literal from the front of the input, or fail. -/
def dropLiteral : List Char → List Char → Option (List Char)
  | [], s => some s
  | _ :: _, [] => none
  | l :: ls, c :: cs => if c = l then dropLiteral ls cs else none

/-- The literal part of `/\(!\?#Timestamp:(\d+\.?\d*)\)/g`. -/
def tsLiteral : List Char := "(!?#Timestamp:".toList

/-- The literal part of `/\(!\?#Video:(https:\/\/[^)]+)\)/g`. -/
def videoLiteral : List Char := "(!?#Video:".toList

/-- The literal part of `/\(!\?#Image:(https:\/\/[^)]+)\)/g`. -/
def imageLiteral : List Char := "(!?#Image:".toList

/-- The mandatory scheme of the captured media URL. -/
def urlScheme : List Char := "https://".toList

/-- Match `\(!\?#Timestamp:(\d+\.?\d*)\)` at the start of the input,
returning the captured numeral and the total match length.  The regex
requires at least one digit, then an optional dot, then more digits, then a
closing parenthesis; greedy digit runs make the match deterministic. -/
def matchTimestampAt (s : List Char) : Option (List Char × Nat) :=
  match dropLiteral tsLiteral s with
  | none => none
  | some rest =>
    let intPart := rest.takeWhile Char.isDigit
    let rest₁ := rest.dropWhile Char.isDigit
    if intPart.isEmpty then none
    else
      match rest₁ with
      | '.' :: rest₂ =>
        let fracPart := rest₂.takeWhile Char.isDigit
        let rest₃ := rest₂.dropWhile Char.isDigit
        match rest₃ with
        | ')' :: _ =>
            some (intPart ++ '.' :: fracPart,
              tsLiteral.length + intPart.length + 1 + fracPart.length + 1)
        | _ => none
      | ')' :: _ => some (intPart, tsLiteral.length + intPart.length + 1)
      | _ => none

/-- Match a media pattern `lit(https://[^)]+)\)` at the start of the input,
returning the captured URL and the total match length. -/
def matchMediaAt (lit : List Char) (s : List Char) : Option (List Char × Nat) :=
  match dropLiteral lit s with
  | none => none
  | some rest =>
    match dropLiteral urlScheme rest with
    | none => none
    | some rest₁ =>
      let body := rest₁.takeWhile (fun c => ¬c = ')')
      let rest₂ := rest₁.dropWhile (fun c => ¬c = ')')
      if body.isEmpty then none
      else
        match rest₂ with
        | ')' :: _ =>
            some (urlScheme ++ body,
              lit.length + urlScheme.length + body.length + 1)
        | _ => none

/-- One step of `re.exec` scanning: at each index try the matcher on the
remaining input; on a match, record `(index, capture, length)` and resume
after the match, otherwise advance one character.  `fuel` bounds the
recursion; each step consumes at least one character, so fuel equal to the
input length is exact. -/
def scanMatchesAux (matchAt : List Char → Option (List Char × Nat)) :
    Nat → List Char → Nat → List (Nat × List Char × Nat)
  | 0, _, _ => []
  | _ + 1, [], _ => []
  | fuel + 1, c :: cs, i =>
    match matchAt (c :: cs) with
    | some (cap, len) =>
        (i, cap, len) :: scanMatchesAux matchAt fuel (List.drop (len - 1) cs) (i + len)
    | none => scanMatchesAux matchAt fuel cs (i + 1)

/-- All matches of a pattern in the text, left to right, non-overlapping. -/
def scanMatches (matchAt : List Char → Option (List Char × Nat))
    (t : List Char) : List (Nat × List Char × Nat) :=
  scanMatchesAux matchAt t.length t 0

/-- The timestamp matches of the text. -/
def timestampMatches (t : List Char) : List (Nat × List Char × Nat) :=
  scanMatches matchTimestampAt t

/-- The video matches of the text. -/
def videoMatches (t : List Char) : List (Nat × List Char × Nat) :=
  scanMatches (matchMediaAt videoLiteral) t

/-- The image matches of the text. -/
def imageMatches (t : List Char) : List (Nat × List Char × Nat) :=
  scanMatches (matchMediaAt imageLiteral) t

/-- The value left in the `timestamp` variable after the timestamp `exec`
loop: the capture of the last timestamp match, if any. -/
def lastTimestampValue (t : List Char) : Option (List Char) :=
  (timestampMatches t).getLast?.map (fun m => m.2.1)

/-- A rendered part of a message: plain text, an `ImageRenderer`, a
`VideoRenderer` (with the optional timestamp it receives), or the empty
fragment a timestamp tag is replaced by. -/
inductive MsgNode where
  | text (s : List Char)
  | image (url : List Char)
  | video (url : List Char) (timestamp : Option (List Char))
  | tsMark
  deriving DecidableEq, Repr

/-- The `allMatches` array before sorting: timestamp marks, then video
nodes (each built with the single `timestamp` variable), then image nodes,
each as `(start, end, node)`. -/
def allMatches (t : List Char) : List (Nat × Nat × MsgNode) :=
  let ts := lastTimestampValue t
  ((timestampMatches t).map (fun m => (m.1, m.1 + m.2.2, MsgNode.tsMark))) ++
    ((videoMatches t).map (fun m => (m.1, m.1 + m.2.2, MsgNode.video m.2.1 ts))) ++
    ((imageMatches t).map (fun m => (m.1, m.1 + m.2.2, MsgNode.image m.2.1)))

/-- `text.substring(a, b)` on the character list. -/
def substringChars (t : List Char) (a b : Nat) : List Char :=
  (t.drop a).take (b - a)

/-- The final loop of `parseMessageContent`: walk the sorted matches,
pushing the text before each match (when it starts after `lastIndex`), then
the match's node, finally the trailing text. -/
def interleaveParts (t : List Char) : Nat → List (Nat × Nat × MsgNode) → List MsgNode
  | lastIndex, [] =>
      if lastIndex < t.length then [.text (substringChars t lastIndex t.length)] else []
  | lastIndex, (s, e, node) :: rest =>
      (if lastIndex < s then [MsgNode.text (substringChars t lastIndex s)] else []) ++
        node :: interleaveParts t e rest

/-- The comparison the matches are sorted by: start position. -/
def startRel (a b : Nat × Nat × MsgNode) : Prop := a.1 ≤ b.1

instance : DecidableRel startRel := fun a b => Nat.decLe a.1 b.1

/-- `parseMessageContent` (Message.tsx lines 88–159): empty text is returned
as-is; otherwise the matches are sorted by start position (stably, as
`Array.prototype.sort` is — insertion sort is a stable sort) and interleaved
with the surrounding text. -/
def parseMessageContent (t : List Char) : List MsgNode :=
  if t.isEmpty then [.text t]
  else
    let parts := interleaveParts t 0 (List.insertionSort startRel (allMatches t))
    if parts.isEmpty then [.text t] else parts

/-- Recognizer for video parts, used to count rendered videos. -/
def isVideoNode : MsgNode → Bool
  | .video _ _ => true
  | _ => false

/-! Section: Helper lemmas -/

theorem poolStep_inFlight_le {c : Nat} {a b : PoolState}
    (hab : PoolStep c a b) (ha : a.inFlight ≤ c) : b.inFlight ≤ c := by
  cases hab with
  | dispatch p f d h => exact h
  | finish p f d => exact Nat.le_of_succ_le ha

theorem poolReaches_inFlight_le {c : Nat} {a b : PoolState}
    (h : PoolReaches c a b) (ha : a.inFlight ≤ c) : b.inFlight ≤ c := by
  induction h with
  | refl => exact ha
  | tail _ hstep ih => exact poolStep_inFlight_le hstep ih

/-! Section: Claim theorems -/

/-- C1: for every batch run of the fan-out pool, the number of
simultaneously in-flight embedding worker tasks never exceeds the configured
`maxConcurrency` of the distributed map, and that ceiling is a single
configured integer which this deployment fixes inside the range 1 to 3
(concretely at 1, pipeline.ts line 439). -/
theorem c1_concurrency_ceiling (n : Nat) (s : PoolState)
    (h : PoolReaches maxConcurrency (initialPool n) s) :
    s.inFlight ≤ maxConcurrency ∧ 1 ≤ maxConcurrency ∧ maxConcurrency ≤ 3 :=
  ⟨poolReaches_inFlight_le h (Nat.zero_le _), by decide, by decide⟩

/-- Witness for C1: from a two-item batch, dispatching one task reaches a
state with one task in flight, and the bound holds there. -/
theorem c1_concurrency_ceiling_witness :
    (⟨1, 1, 0⟩ : PoolState).inFlight ≤ maxConcurrency ∧
      1 ≤ maxConcurrency ∧ maxConcurrency ≤ 3 :=
  c1_concurrency_ceiling 2 ⟨1, 1, 0⟩
    (Relation.ReflTransGen.single (PoolStep.dispatch 1 0 0 (by decide)))

/-- C2 counterexample: with `isValid = true` the choice state moves to the
distributed map even though the manifest is empty, whereas the claim (the
spec's transition rule, `specChoiceSuccessor`) demands a direct transition
to the success terminal for an empty manifest.  The choice condition in the
code reads only `$.Payload.isValid`; the manifest plays no part. -/
theorem c2_counterexample :
    nextState ⟨false, false, true⟩ .ingestionChoice = some .distributedMap ∧
      specChoiceSuccessor true ([] : List ManifestItem) = .succeeded ∧
      SfnState.distributedMap ≠ SfnState.succeeded := by
  decide

/-- C2 (amended): the orchestrator transitions from the post-bookkeeping
choice to the fan-out (distributed map) state if and only if
`isValid = true`; when `isValid = false` it transitions directly to the
success terminal.  The manifest's emptiness is not consulted: an empty
manifest with `isValid = true` still enters the fan-out state (which then
iterates over zero items). -/
theorem c2_choice_on_isValid_only (env : ExecEnv) :
    nextState env .ingestionChoice =
      some (if env.isValid then .distributedMap else .succeeded) := by
  obtain ⟨v, b, val⟩ := env
  cases val <;> rfl

/-- C4: every execution starts with validation; the bookkeeping
(vector-store management) stage runs strictly after validation and strictly
before the fan-out state whenever fan-out is entered; if bookkeeping fails,
no fan-out state is ever entered (and hence no worker task dispatched); and
a successful run ends in the success terminal. -/
theorem c4_stage_order (env : ExecEnv) :
    (execTrace env).head? = some .inputValidation ∧
      (SfnState.vectorStoreManagement ∈ execTrace env →
        (execTrace env).indexOf .inputValidation <
          (execTrace env).indexOf .vectorStoreManagement) ∧
      (SfnState.distributedMap ∈ execTrace env →
        SfnState.vectorStoreManagement ∈ execTrace env ∧
          (execTrace env).indexOf .vectorStoreManagement <
            (execTrace env).indexOf .distributedMap) ∧
      (env.bookkeepFails = true →
        SfnState.distributedMap ∉ execTrace env ∧
          ∀ manifest : List ManifestItem, dispatchedWorkerTasks env manifest = 0) ∧
      (SfnState.succeeded ∈ execTrace env →
        (execTrace env).getLast? = some .succeeded) := by
  have hz : ∀ e : ExecEnv, SfnState.distributedMap ∉ execTrace e →
      ∀ manifest : List ManifestItem, dispatchedWorkerTasks e manifest = 0 := by
    intro e he manifest
    simp [dispatchedWorkerTasks, he]
  obtain ⟨v, b, val⟩ := env
  cases v <;> cases b <;> cases val <;>
    exact ⟨by decide, by decide, by decide,
      fun hb => by
        first
          | exact absurd hb (by decide)
          | exact ⟨by decide, hz _ (by decide)⟩,
      by decide⟩

/-- Witness for C4: in a fully successful execution with documents to
ingest, bookkeeping runs before the fan-out state. -/
theorem c4_stage_order_witness :
    SfnState.vectorStoreManagement ∈ execTrace ⟨false, false, true⟩ ∧
      (execTrace ⟨false, false, true⟩).indexOf .vectorStoreManagement <
        (execTrace ⟨false, false, true⟩).indexOf .distributedMap :=
  (c4_stage_order ⟨false, false, true⟩).2.2.1 (by decide)

/-- C5 counterexample: on a valid batch whose manifest is empty the
execution still enters the distributed-map state (it does not short-circuit
around fan-out), even though zero worker tasks are dispatched for the empty
manifest.  The claimed direct jump to the terminal state does not happen. -/
theorem c5_counterexample :
    SfnState.distributedMap ∈ execTrace ⟨false, false, true⟩ ∧
      dispatchedWorkerTasks ⟨false, false, true⟩ ([] : List ManifestItem) = 0 := by
  decide

/-- C5 (amended): when validation produces an empty manifest and the two
lambda stages succeed, the batch is not treated as an error: the execution
ends in the success terminal, never reaches the failure terminal, and
dispatches zero embedding worker tasks — but it passes through the
distributed-map state rather than skipping it, because the choice state
consults only `isValid`. -/
theorem c5_empty_manifest_not_an_error (env : ExecEnv)
    (hv : env.validationFails = false) (hb : env.bookkeepFails = false) :
    (execTrace env).getLast? = some .succeeded ∧
      SfnState.failed ∉ execTrace env ∧
      dispatchedWorkerTasks env ([] : List ManifestItem) = 0 := by
  obtain ⟨v, b, val⟩ := env
  cases v <;> cases b <;> cases val <;> simp_all <;> decide

/-- Witness for C5: the empty-manifest run with `isValid = true`. -/
theorem c5_empty_manifest_not_an_error_witness :
    (execTrace ⟨false, false, true⟩).getLast? = some .succeeded ∧
      SfnState.failed ∉ execTrace ⟨false, false, true⟩ ∧
      dispatchedWorkerTasks ⟨false, false, true⟩ ([] : List ManifestItem) = 0 :=
  c5_empty_manifest_not_an_error ⟨false, false, true⟩ rfl rfl

/-- C9: the ingestion pipeline (ingestion state machine, change-cache table,
ECS embeddings cluster) is provisioned if and only if the configured corpus
type is not `knowledgebase`; when it is `knowledgebase`, the stack instead
provisions a Bedrock knowledge base backed by an OpenSearch vector store and
no ingestion orchestration exists. -/
theorem c9_ingestion_iff_not_knowledgebase (corpusType : Option String) :
    ((StackConstruct.ingestionStateMachine ∈ provisionedConstructs corpusType ∧
        StackConstruct.cacheTable ∈ provisionedConstructs corpusType ∧
        StackConstruct.embeddingsCluster ∈ provisionedConstructs corpusType) ↔
      corpusType ≠ some "knowledgebase") ∧
      (corpusType = some "knowledgebase" →
        StackConstruct.knowledgeBase ∈ provisionedConstructs corpusType ∧
          StackConstruct.openSearchVectorStore ∈ provisionedConstructs corpusType ∧
          StackConstruct.ingestionStateMachine ∉ provisionedConstructs corpusType ∧
          StackConstruct.cacheTable ∉ provisionedConstructs corpusType ∧
          StackConstruct.embeddingsCluster ∉ provisionedConstructs corpusType) := by
  by_cases h : corpusType = some "knowledgebase" <;>
    simp [provisionedConstructs, ingestionPipelineConstructs, h]

/-- Witness for C9: with corpus type `knowledgebase`, the knowledge base is
provisioned and the ingestion state machine is not. -/
theorem c9_ingestion_iff_not_knowledgebase_witness :
    StackConstruct.knowledgeBase ∈ provisionedConstructs (some "knowledgebase") ∧
      StackConstruct.openSearchVectorStore ∈ provisionedConstructs (some "knowledgebase") ∧
      StackConstruct.ingestionStateMachine ∉ provisionedConstructs (some "knowledgebase") ∧
      StackConstruct.cacheTable ∉ provisionedConstructs (some "knowledgebase") ∧
      StackConstruct.embeddingsCluster ∉ provisionedConstructs (some "knowledgebase") :=
  (c9_ingestion_iff_not_knowledgebase (some "knowledgebase")).2 rfl

/-- C8 counterexample: a corpus configuration that is present and sets
`chunkSize` to `0` does not reach the worker — JavaScript `||` treats the
falsy `0` as absent, so the container environment carries the default
(here 512) instead of the configured value `0`, refuting "equal the corpus
configuration's chunking values when those are present". -/
theorem c8_counterexample :
    configuredChunkSize (some ⟨some ⟨some ⟨some 0, none⟩⟩⟩) = some 0 ∧
      lookupEnv
          (effectiveTaskEnvironment ⟨"", "", "", "", "", "", "", "", ""⟩
            (some ⟨some ⟨some ⟨some 0, none⟩⟩⟩) 512 100 "in" "exec" "sm")
          "CHUNK_SIZE_DOC_SPLIT" = some (toString 512) ∧
      some (toString 512) ≠ some (toString 0) := by
  refine ⟨rfl, rfl, by decide⟩

/-- C8 (amended): the chunk size and chunk overlap supplied to the embedding
workers are fixed per deployment — they do not vary with the batch's input,
execution name or state machine name — and equal the corpus configuration's
chunking values when those are present AND nonzero, otherwise the default
constants (a present value of `0` falls back to the default because the
source combines the optional chain with JavaScript `||`). -/
theorem c8_chunking_configuration (dep : DeploymentValues)
    (cfg : Option DefaultCorpusConfig) (defaultChunkSize defaultChunkOverlap : Nat)
    (i e s i' e' s' : String) :
    (∀ n, configuredChunkSize cfg = some n → n ≠ 0 →
      lookupEnv (effectiveTaskEnvironment dep cfg defaultChunkSize defaultChunkOverlap i e s)
          "CHUNK_SIZE_DOC_SPLIT" = some (toString n)) ∧
      ((configuredChunkSize cfg = none ∨ configuredChunkSize cfg = some 0) →
        lookupEnv (effectiveTaskEnvironment dep cfg defaultChunkSize defaultChunkOverlap i e s)
            "CHUNK_SIZE_DOC_SPLIT" = some (toString defaultChunkSize)) ∧
      (∀ n, configuredChunkOverlap cfg = some n → n ≠ 0 →
        lookupEnv (effectiveTaskEnvironment dep cfg defaultChunkSize defaultChunkOverlap i e s)
            "OVERLAP_FOR_DOC_SPLIT" = some (toString n)) ∧
      ((configuredChunkOverlap cfg = none ∨ configuredChunkOverlap cfg = some 0) →
        lookupEnv (effectiveTaskEnvironment dep cfg defaultChunkSize defaultChunkOverlap i e s)
            "OVERLAP_FOR_DOC_SPLIT" = some (toString defaultChunkOverlap)) ∧
      lookupEnv (effectiveTaskEnvironment dep cfg defaultChunkSize defaultChunkOverlap i e s)
          "CHUNK_SIZE_DOC_SPLIT" =
        lookupEnv (effectiveTaskEnvironment dep cfg defaultChunkSize defaultChunkOverlap i' e' s')
          "CHUNK_SIZE_DOC_SPLIT" ∧
      lookupEnv (effectiveTaskEnvironment dep cfg defaultChunkSize defaultChunkOverlap i e s)
          "OVERLAP_FOR_DOC_SPLIT" =
        lookupEnv (effectiveTaskEnvironment dep cfg defaultChunkSize defaultChunkOverlap i' e' s')
          "OVERLAP_FOR_DOC_SPLIT" := by
  have hsize : ∀ j f m,
      lookupEnv (effectiveTaskEnvironment dep cfg defaultChunkSize defaultChunkOverlap j f m)
          "CHUNK_SIZE_DOC_SPLIT" =
        some (toString (jsOrDefault (configuredChunkSize cfg) defaultChunkSize)) :=
    fun _ _ _ => rfl
  have hover : ∀ j f m,
      lookupEnv (effectiveTaskEnvironment dep cfg defaultChunkSize defaultChunkOverlap j f m)
          "OVERLAP_FOR_DOC_SPLIT" =
        some (toString (jsOrDefault (configuredChunkOverlap cfg) defaultChunkOverlap)) :=
    fun _ _ _ => rfl
  refine ⟨?_, ?_, ?_, ?_, ?_, ?_⟩
  · intro n hn hnz
    rw [hsize, hn]
    simp [jsOrDefault, hnz]
  · rintro (hn | hn) <;> rw [hsize, hn] <;> simp [jsOrDefault]
  · intro n hn hnz
    rw [hover, hn]
    simp [jsOrDefault, hnz]
  · rintro (hn | hn) <;> rw [hover, hn] <;> simp [jsOrDefault]
  · rw [hsize, hsize]
  · rw [hover, hover]

/-- Witness for C8: a present, nonzero configured chunk size of 777 reaches
the container environment verbatim. -/
theorem c8_chunking_configuration_witness :
    lookupEnv
        (effectiveTaskEnvironment ⟨"", "", "", "", "", "", "", "", ""⟩
          (some ⟨some ⟨some ⟨some 777, some 42⟩⟩⟩) 512 100 "in" "exec" "sm")
        "CHUNK_SIZE_DOC_SPLIT" = some (toString 777) :=
  (c8_chunking_configuration ⟨"", "", "", "", "", "", "", "", ""⟩
      (some ⟨some ⟨some ⟨some 777, some 42⟩⟩⟩) 512 100 "in" "exec" "sm" "in" "exec" "sm").1
    777 rfl (by decide)

/-- C6: the change-cache table maintains a secondary index (`GSI1`) whose
entries are ordered by the pair `(UpdatedStatus, FileURI)` — status first,
document id second — so that for every status value the "all entries with
this status" scan is a single contiguous index query whose result is a
permutation of exactly the matching table entries, returned ordered by
document id. -/
theorem c6_status_index (table : List CacheEntry) (status : String) :
    List.Sorted gsi1KeyRel (gsi1Index table) ∧
      (gsi1QueryByStatus table status).Perm
        (table.filter (fun e => e.updatedStatus = status)) ∧
      List.Sorted (fun a b : CacheEntry => a.fileURI ≤ b.fileURI)
        (gsi1QueryByStatus table status) := by
  have hs : List.Sorted gsi1KeyRel (gsi1Index table) :=
    List.sorted_insertionSort gsi1KeyRel table
  refine ⟨hs, (List.perm_insertionSort gsi1KeyRel table).filter _, ?_⟩
  have hf : List.Pairwise gsi1KeyRel (gsi1QueryByStatus table status) :=
    hs.filter _
  refine hf.imp_of_mem ?_
  intro a b ha hb hab
  rw [gsi1QueryByStatus, List.mem_filter] at ha hb
  have ha' : a.updatedStatus = status := of_decide_eq_true ha.2
  have hb' : b.updatedStatus = status := of_decide_eq_true hb.2
  rcases hab with h | ⟨_, hle⟩
  · rw [ha', hb'] at h
    exact absurd h (lt_irrefl status)
  · exact hle

theorem countP_uri_eq_one :
    ∀ l : List ManifestItem, (l.map ManifestItem.uri).Nodup →
      ∀ it ∈ l, l.countP (fun x => decide (x.uri = it.uri)) = 1 := by
  intro l
  induction l with
  | nil => intro _ it hit; cases hit
  | cons a l ih =>
    intro hnd it hit
    rw [List.map_cons, List.nodup_cons] at hnd
    rcases List.mem_cons.mp hit with rfl | hmem
    · rw [List.countP_cons]
      have hz : l.countP (fun x => decide (x.uri = it.uri)) = 0 := by
        rw [List.countP_eq_zero]
        intro x hx hx'
        exact hnd.1 (of_decide_eq_true hx' ▸ List.mem_map_of_mem ManifestItem.uri hx)
      simp [hz]
    · rw [List.countP_cons, ih hnd.2 it hmem]
      have ha : a.uri ≠ it.uri := by
        intro hcontra
        exact hnd.1 (hcontra ▸ List.mem_map_of_mem ManifestItem.uri hmem)
      simp [ha]

theorem resultWriterLocation_injective : Function.Injective resultWriterLocation := by
  intro a b h
  simp only [resultWriterLocation] at h
  have hdata := congrArg String.data h
  simp only [String.data_append] at hdata
  exact String.ext (List.append_cancel_left (List.append_cancel_right hdata))

/-- C3 counterexample: a documented per-item result record carries exactly
the fields `FileURI` and `EmbeddingsGenerated`
(`{"FileURI": "s3://...", "EmbeddingsGenerated": 123}`); no record field
carries the item's status, refuting "each record has the fields documentUri,
unitsProduced, and status". -/
theorem c3_counterexample :
    "status" ∉ resultRecordFields ∧ "Status" ∉ resultRecordFields ∧
      resultRecordFields = ["FileURI", "EmbeddingsGenerated"] := by
  decide

/-- C3 (amended): for every batch reaching the terminal state over a
manifest with distinct document URIs, the result manifest contains exactly
one record per manifest item — no duplicates, no omissions — each record
carrying the document URI (`FileURI`) and the units produced
(`EmbeddingsGenerated`), but no status field; the records are written under
a location derived injectively from the batch execution name
(`ingestion_output/{executionName}/sf-results`), so distinct executions
write to distinct locations.  The item's status is conveyed by the result
writer's grouping, not by a record field. -/
theorem c3_result_manifest (manifest : List ManifestItem) (units : String → Nat)
    (h : (manifest.map ManifestItem.uri).Nodup) :
    (fanOutResultRecords manifest units).length = manifest.length ∧
      (∀ it ∈ manifest,
        (fanOutResultRecords manifest units).countP
            (fun r => decide (r.fileURI = it.uri)) = 1) ∧
      (∀ r ∈ fanOutResultRecords manifest units,
        ∃ it ∈ manifest, r.fileURI = it.uri ∧ r.embeddingsGenerated = units it.uri) ∧
      "FileURI" ∈ resultRecordFields ∧ "EmbeddingsGenerated" ∈ resultRecordFields ∧
      Function.Injective resultWriterLocation := by
  refine ⟨List.length_map _ _, ?_, ?_, by decide, by decide,
    resultWriterLocation_injective⟩
  · intro it hit
    rw [fanOutResultRecords, List.countP_map]
    exact countP_uri_eq_one manifest h it hit
  · intro r hr
    rw [fanOutResultRecords, List.mem_map] at hr
    obtain ⟨it, hit, rfl⟩ := hr
    exact ⟨it, hit, rfl, rfl⟩

/-- Witness for C3: a two-item manifest with distinct URIs yields exactly
one result record for the first document. -/
theorem c3_result_manifest_witness :
    (fanOutResultRecords [⟨"s3://a", false, "f"⟩, ⟨"s3://b", true, "g"⟩]
        (fun _ => 3)).countP (fun r => decide (r.fileURI = "s3://a")) = 1 :=
  (c3_result_manifest [⟨"s3://a", false, "f"⟩, ⟨"s3://b", true, "g"⟩] (fun _ => 3)
      (by decide)).2.1 ⟨"s3://a", false, "f"⟩ (by decide)

theorem filter_id_upsert (c : List CacheRecord) (id fp d : String) (hne : id ≠ d) :
    (upsertRecord c id fp).filter (fun r => decide (r.id = d)) =
      c.filter (fun r => decide (r.id = d)) := by
  unfold upsertRecord
  split
  · rw [List.filter_map]
    have hcomp : ((fun r : CacheRecord => decide (r.id = d)) ∘
        fun r : CacheRecord =>
          if r.id = id then
            if r.fingerprint = fp then r
            else { r with fingerprint := fp, status := .pending }
          else r) = fun r : CacheRecord => decide (r.id = d) := by
      funext r
      by_cases h1 : r.id = id
      · by_cases h2 : r.fingerprint = fp <;> simp [h1, h2]
      · simp [h1]
    rw [hcomp]
    have hid : ∀ r ∈ c.filter (fun r => decide (r.id = d)),
        (if r.id = id then
          if r.fingerprint = fp then r
          else { r with fingerprint := fp, status := CacheStatus.pending }
        else r) = r := by
      intro r hr
      have : r.id = d := of_decide_eq_true (List.mem_filter.mp hr).2
      rw [if_neg (this ▸ fun h => hne h.symm)]
    rw [List.map_congr_left hid]
    exact List.map_id' _
  · rw [List.filter_append]
    have : List.filter (fun r : CacheRecord => decide (r.id = d))
        [⟨id, fp, .pending⟩] = [] := by
      simp [List.filter, hne]
    rw [this, List.append_nil]

theorem filter_id_upsert_foldl (d : String) :
    ∀ (listing : List (String × String)) (c : List CacheRecord),
      (∀ pair ∈ listing, pair.1 ≠ d) →
      (listing.foldl (fun c pair => upsertRecord c pair.1 pair.2) c).filter
          (fun r => decide (r.id = d)) = c.filter (fun r => decide (r.id = d)) := by
  intro listing
  induction listing with
  | nil => intro c _; rfl
  | cons p ps ih =>
    intro c hd
    rw [List.foldl_cons, ih _ (fun q hq => hd q (List.mem_cons_of_mem p hq)),
      filter_id_upsert c p.1 p.2 d (hd p (List.mem_cons_self p ps))]

theorem filter_id_markDeleted (c : List CacheRecord) (listed : List String)
    (d : String) (hd : d ∉ listed) :
    (markDeletedUnlisted c listed).filter (fun r => decide (r.id = d)) =
      (c.filter (fun r => decide (r.id = d))).map
        (fun r => { r with status := CacheStatus.deleted }) := by
  unfold markDeletedUnlisted
  rw [List.filter_map]
  have hcomp : ((fun r : CacheRecord => decide (r.id = d)) ∘
      fun r : CacheRecord =>
        if r.id ∈ listed then r else { r with status := .deleted }) =
      fun r : CacheRecord => decide (r.id = d) := by
    funext r
    by_cases h1 : r.id ∈ listed <;> simp [h1]
  rw [hcomp]
  apply List.map_congr_left
  intro r hr
  have hrd : r.id = d := of_decide_eq_true (List.mem_filter.mp hr).2
  rw [if_neg (hrd ▸ hd)]

theorem filter_id_validation (cache : List CacheRecord)
    (listing : List (String × String)) (d : String)
    (hd : ∀ pair ∈ listing, pair.1 ≠ d) :
    (validationCacheUpdate cache listing).filter (fun r => decide (r.id = d)) =
      (cache.filter (fun r => decide (r.id = d))).map
        (fun r => { r with status := CacheStatus.deleted }) := by
  unfold validationCacheUpdate
  have hnot : d ∉ listing.map (·.1) := by
    intro hmem
    obtain ⟨pair, hp, he⟩ := List.mem_map.mp hmem
    exact hd pair hp he
  rw [filter_id_markDeleted _ _ _ hnot, filter_id_upsert_foldl d listing cache hd]

theorem buildManifest_filter_uri (d : String) (c : List CacheRecord) :
    (buildManifest c).filter (fun it => decide (it.uri = d)) =
      buildManifest (c.filter (fun r => decide (r.id = d))) := by
  induction c with
  | nil => rfl
  | cons r c ih =>
    simp only [buildManifest] at ih ⊢
    cases hst : r.status <;> by_cases hid : r.id = d <;>
      simp [List.filterMap_cons, List.filter_cons, hst, hid, ih]

theorem filter_eq_singleton_split {α : Type} (p : α → Bool) :
    ∀ (l : List α) (a : α), l.filter p = [a] →
      ∃ l1 l2, l = l1 ++ a :: l2 ∧ (∀ x ∈ l1, p x = false) ∧
        ∀ x ∈ l2, p x = false := by
  intro l
  induction l with
  | nil => intro a h; cases h
  | cons x l ih =>
    intro a h
    by_cases hx : p x = true
    · rw [List.filter_cons_of_pos hx] at h
      obtain ⟨rfl, hnil⟩ : x = a ∧ l.filter p = [] := by
        constructor
        · exact (List.cons_eq_cons.mp h).1
        · exact (List.cons_eq_cons.mp h).2
      refine ⟨[], l, by simp, by simp, ?_⟩
      intro y hy
      have := List.filter_eq_nil_iff.mp hnil y hy
      exact Bool.eq_false_iff.mpr this
    · rw [List.filter_cons_of_neg hx] at h
      obtain ⟨l1, l2, rfl, h1, h2⟩ := ih a h
      refine ⟨x :: l1, l2, rfl, ?_, h2⟩
      intro y hy
      rcases List.mem_cons.mp hy with rfl | hy'
      · exact Bool.eq_false_iff.mpr hx
      · exact h1 y hy'

theorem applyItem_preserves_no_id (chunksOf : String → List String)
    (w : WorldState) (item : ManifestItem) (d : String) (hne : item.uri ≠ d)
    (hc : ∀ r ∈ w.cache, r.id ≠ d) (hv : ∀ v ∈ w.vectors, v.1 ≠ d) :
    (∀ r ∈ (applyItem chunksOf w item).cache, r.id ≠ d) ∧
      ∀ v ∈ (applyItem chunksOf w item).vectors, v.1 ≠ d := by
  unfold applyItem
  split
  · exact ⟨fun r hr => hc r (List.mem_of_mem_filter hr),
      fun v hv' => hv v (List.mem_of_mem_filter hv')⟩
  · constructor
    · intro r hr
      obtain ⟨r', hr', he⟩ := List.mem_map.mp hr
      have : r.id = r'.id := by
        by_cases h1 : r'.id = item.uri <;> simp [← he, h1]
      exact this ▸ hc r' hr'
    · intro v hvmem
      rcases List.mem_append.mp hvmem with h | h
      · exact hv v h
      · obtain ⟨ch, _, he⟩ := List.mem_map.mp h
        rw [← he]
        exact hne

theorem applyItem_delete_clears (chunksOf : String → List String)
    (w : WorldState) (d fp : String) :
    (∀ r ∈ (applyItem chunksOf w ⟨d, true, fp⟩).cache, r.id ≠ d) ∧
      ∀ v ∈ (applyItem chunksOf w ⟨d, true, fp⟩).vectors, v.1 ≠ d := by
  constructor
  · intro r hr
    exact of_decide_eq_true (List.mem_filter.mp hr).2
  · intro v hvmem
    exact of_decide_eq_true (List.mem_filter.mp hvmem).2

theorem applyFanOut_preserves_no_id (chunksOf : String → List String)
    (d : String) :
    ∀ (ms : List ManifestItem) (w : WorldState),
      (∀ it ∈ ms, it.uri ≠ d) →
      (∀ r ∈ w.cache, r.id ≠ d) → (∀ v ∈ w.vectors, v.1 ≠ d) →
      (∀ r ∈ (applyFanOut chunksOf w ms).cache, r.id ≠ d) ∧
        ∀ v ∈ (applyFanOut chunksOf w ms).vectors, v.1 ≠ d := by
  intro ms
  induction ms with
  | nil => intro w _ hc hv; exact ⟨hc, hv⟩
  | cons it ms ih =>
    intro w hms hc hv
    have h1 := applyItem_preserves_no_id chunksOf w it d
      (hms it (List.mem_cons_self it ms)) hc hv
    exact ih (applyItem chunksOf w it)
      (fun x hx => hms x (List.mem_cons_of_mem it hx)) h1.1 h1.2

/-- C7: object-removal events on the input bucket are wired to the change
detection lambda exactly as creation events are; consequently, for a
document `d` that has exactly one cache entry and no longer appears in the
corpus listing, the next manifest contains exactly one action for `d` and it
is a `Delete` (carrying `d`'s cached fingerprint), and after the fan-out
pass `d` has no change-cache entry and no vectors in the store. -/
theorem c7_deletion_completeness (cache : List CacheRecord)
    (listing : List (String × String)) (vectors : List (String × String))
    (chunksOf : String → List String) (d : String) (r0 : CacheRecord)
    (hone : cache.filter (fun r => decide (r.id = d)) = [r0])
    (hunlisted : ∀ pair ∈ listing, pair.1 ≠ d) :
    (S3EventType.objectRemoved, "cacheUpdateFunction") ∈ inputBucketNotifications ∧
      (buildManifest (validationCacheUpdate cache listing)).filter
          (fun it => decide (it.uri = d)) = [⟨d, true, r0.fingerprint⟩] ∧
      (∀ r ∈ (applyFanOut chunksOf ⟨validationCacheUpdate cache listing, vectors⟩
          (buildManifest (validationCacheUpdate cache listing))).cache, r.id ≠ d) ∧
      ∀ v ∈ (applyFanOut chunksOf ⟨validationCacheUpdate cache listing, vectors⟩
          (buildManifest (validationCacheUpdate cache listing))).vectors, v.1 ≠ d := by
  have hr0mem : r0 ∈ cache.filter (fun r => decide (r.id = d)) := by
    rw [hone]; exact List.mem_singleton_self r0
  have hr0id : r0.id = d := of_decide_eq_true (List.mem_filter.mp hr0mem).2
  have hfv : (validationCacheUpdate cache listing).filter
      (fun r => decide (r.id = d)) = [{ r0 with status := CacheStatus.deleted }] := by
    rw [filter_id_validation cache listing d hunlisted, hone, List.map_cons, List.map_nil]
  have hmani : (buildManifest (validationCacheUpdate cache listing)).filter
      (fun it => decide (it.uri = d)) = [⟨d, true, r0.fingerprint⟩] := by
    rw [buildManifest_filter_uri, hfv]
    simp [buildManifest, hr0id]
  refine ⟨by decide, hmani, ?_⟩
  obtain ⟨m1, m2, hsplit, hm1, hm2⟩ :=
    filter_eq_singleton_split _ _ _ hmani
  rw [hsplit]
  have hw1 := applyItem_delete_clears chunksOf
    (applyFanOut chunksOf ⟨validationCacheUpdate cache listing, vectors⟩ m1)
    d r0.fingerprint
  have hrest := applyFanOut_preserves_no_id chunksOf d m2
    (applyItem chunksOf
      (applyFanOut chunksOf ⟨validationCacheUpdate cache listing, vectors⟩ m1)
      ⟨d, true, r0.fingerprint⟩)
    (fun x hx => of_decide_eq_false (hm2 x hx)) hw1.1 hw1.2
  have hfold : applyFanOut chunksOf ⟨validationCacheUpdate cache listing, vectors⟩
      (m1 ++ ⟨d, true, r0.fingerprint⟩ :: m2) =
      applyFanOut chunksOf
        (applyItem chunksOf
          (applyFanOut chunksOf ⟨validationCacheUpdate cache listing, vectors⟩ m1)
          ⟨d, true, r0.fingerprint⟩) m2 := by
    unfold applyFanOut
    rw [List.foldl_append, List.foldl_cons]
  rw [hfold]
  exact hrest

/-- Witness for C7: a concrete two-document corpus from which `d1` is
removed — the manifest contains exactly the `Delete` action for `d1`. -/
theorem c7_deletion_completeness_witness :
    (buildManifest (validationCacheUpdate
        [⟨"d1", "f1", .complete⟩, ⟨"e", "f2", .complete⟩] [("e", "f2")])).filter
        (fun it => decide (it.uri = "d1")) = [⟨"d1", true, "f1"⟩] :=
  (c7_deletion_completeness [⟨"d1", "f1", .complete⟩, ⟨"e", "f2", .complete⟩]
      [("e", "f2")] [("d1", "v")] (fun _ => []) "d1" ⟨"d1", "f1", .complete⟩
      (by decide) (by decide)).2.1

theorem mem_interleaveParts (t : List Char) :
    ∀ (ms : List (Nat × Nat × MsgNode)) (i : Nat) (node : MsgNode),
      node ∈ interleaveParts t i ms →
      (∃ s, node = .text s) ∨ ∃ a b, (a, b, node) ∈ ms := by
  intro ms
  induction ms with
  | nil =>
    intro i node h
    simp only [interleaveParts] at h
    split at h
    · exact Or.inl ⟨_, List.mem_singleton.mp h⟩
    · cases h
  | cons m rest ih =>
    obtain ⟨s, e, nd⟩ := m
    intro i node h
    simp only [interleaveParts] at h
    rcases List.mem_append.mp h with h1 | h2
    · split at h1
      · exact Or.inl ⟨_, List.mem_singleton.mp h1⟩
      · cases h1
    · rcases List.mem_cons.mp h2 with rfl | h3
      · exact Or.inr ⟨s, e, List.mem_cons_self _ _⟩
      · rcases ih e node h3 with htext | ⟨a, b, hmem⟩
        · exact Or.inl htext
        · exact Or.inr ⟨a, b, List.mem_cons_of_mem _ hmem⟩

theorem video_mem_allMatches (t url : List Char) (ts : Option (List Char))
    (a b : Nat) (h : (a, b, MsgNode.video url ts) ∈ allMatches t) :
    ts = lastTimestampValue t := by
  simp only [allMatches, List.mem_append, List.mem_map] at h
  rcases h with (⟨m, _, he⟩ | ⟨m, _, he⟩) | ⟨m, _, he⟩
  · exact absurd (congrArg (fun x => x.2.2) he) (by simp)
  · have hn : MsgNode.video m.2.1 (lastTimestampValue t) = MsgNode.video url ts :=
      congrArg (fun x => x.2.2) he
    exact ((MsgNode.video.injEq _ _ _ _).mp hn).2.symm
  · exact absurd (congrArg (fun x => x.2.2) he) (by simp)

theorem interleaveParts_ne_nil (t : List Char) (ht : ¬t.isEmpty = true)
    (ms : List (Nat × Nat × MsgNode)) : interleaveParts t 0 ms ≠ [] := by
  cases ms with
  | nil =>
    have hlen : 0 < t.length := by
      cases t with
      | nil => exact absurd rfl ht
      | cons c cs => exact Nat.succ_pos _
    simp [interleaveParts, hlen]
  | cons m rest =>
    obtain ⟨s, e, nd⟩ := m
    simp [interleaveParts]

theorem countP_interleaveParts (t : List Char) :
    ∀ (ms : List (Nat × Nat × MsgNode)) (i : Nat),
      (interleaveParts t i ms).countP isVideoNode =
        ms.countP (fun m => isVideoNode m.2.2) := by
  intro ms
  induction ms with
  | nil =>
    intro i
    simp only [interleaveParts]
    split <;> simp [isVideoNode]
  | cons m rest ih =>
    obtain ⟨s, e, nd⟩ := m
    intro i
    simp only [interleaveParts, List.countP_append, List.countP_cons]
    have htext : (if i < s then [MsgNode.text (substringChars t i s)] else []).countP
        isVideoNode = 0 := by
      split <;> simp [isVideoNode]
    rw [htext, ih e]
    simp [Nat.add_comm]

theorem countP_allMatches (t : List Char) :
    (allMatches t).countP (fun m => isVideoNode m.2.2) = (videoMatches t).length := by
  simp only [allMatches, List.countP_append, List.countP_map]
  have h1 : (timestampMatches t).countP
      ((fun m : Nat × Nat × MsgNode => isVideoNode m.2.2) ∘
        fun m => (m.1, m.1 + m.2.2, MsgNode.tsMark)) = 0 := by
    rw [List.countP_eq_zero]
    intro m _
    simp [isVideoNode]
  have h2 : (videoMatches t).countP
      ((fun m : Nat × Nat × MsgNode => isVideoNode m.2.2) ∘
        fun m => (m.1, m.1 + m.2.2, MsgNode.video m.2.1 (lastTimestampValue t))) =
      (videoMatches t).length := by
    rw [List.countP_eq_length]
    intro m _
    simp [isVideoNode]
  have h3 : (imageMatches t).countP
      ((fun m : Nat × Nat × MsgNode => isVideoNode m.2.2) ∘
        fun m => (m.1, m.1 + m.2.2, MsgNode.image m.2.1)) = 0 := by
    rw [List.countP_eq_zero]
    intro m _
    simp [isVideoNode]
  rw [h1, h2, h3]
  omega

theorem countP_parseMessageContent (t : List Char) :
    (parseMessageContent t).countP isVideoNode = (videoMatches t).length := by
  by_cases hemp : t.isEmpty = true
  · have ht : t = [] := by
      cases t with
      | nil => rfl
      | cons c cs => cases hemp
    subst ht
    rfl
  · have hne := interleaveParts_ne_nil t hemp
      (List.insertionSort startRel (allMatches t))
    have hfalse : (interleaveParts t 0
        (List.insertionSort startRel (allMatches t))).isEmpty = false := by
      cases hpt : interleaveParts t 0 (List.insertionSort startRel (allMatches t)) with
      | nil => exact absurd hpt hne
      | cons x xs => rfl
    simp only [parseMessageContent, hemp, if_false, Bool.false_eq_true, hfalse]
    rw [countP_interleaveParts,
      (List.perm_insertionSort startRel (allMatches t)).countP_eq,
      countP_allMatches]

/-- C10: `parseMessageContent` applies at most one timestamp to video
renderings — every video node in the parsed output carries the captured
numeral of the LAST timestamp tag occurring anywhere in the text (`none`
when the text has no timestamp tag), regardless of where each timestamp tag
sits relative to each video tag; and every video tag is rendered (the
output contains exactly one video node per video match). -/
theorem c10_video_timestamp_uniform (t url : List Char) (ts : Option (List Char))
    (h : MsgNode.video url ts ∈ parseMessageContent t) :
    ts = lastTimestampValue t ∧
      (parseMessageContent t).countP isVideoNode = (videoMatches t).length := by
  refine ⟨?_, countP_parseMessageContent t⟩
  by_cases hemp : t.isEmpty = true
  · simp only [parseMessageContent, hemp, if_true] at h
    exact absurd (List.mem_singleton.mp h) (by simp)
  · simp only [parseMessageContent, hemp, Bool.false_eq_true, if_false] at h
    split at h
    · exact absurd (List.mem_singleton.mp h) (by simp)
    · rcases mem_interleaveParts t _ 0 _ h with ⟨s, hs⟩ | ⟨a, b, hmem⟩
      · exact absurd hs (by simp)
      · exact video_mem_allMatches t url ts a b
          ((List.perm_insertionSort startRel (allMatches t)).mem_iff.mp hmem)

/-- Witness for C10: in a text whose video tag precedes its only timestamp
tag, the video is rendered with that (last) timestamp. -/
theorem c10_video_timestamp_uniform_witness :
    (some ['5'] : Option (List Char)) =
        lastTimestampValue "(!?#Video:https://a)(!?#Timestamp:5)".toList ∧
      (parseMessageContent "(!?#Video:https://a)(!?#Timestamp:5)".toList).countP
          isVideoNode =
        (videoMatches "(!?#Video:https://a)(!?#Timestamp:5)".toList).length :=
  c10_video_timestamp_uniform "(!?#Video:https://a)(!?#Timestamp:5)".toList
    "https://a".toList (some ['5']) (by decide)

end DoeChatbot
